import Mathlib

/-!
Verification development for the chess move-legality engine and game-session
state machine of a small game server.  The source consists of a move
validator (two textually identical copies, `ChessLogic.ts` and
`ChessValidator.js`), a `ChessGame` session class, and the HTTP route
handlers that drive it.  Definitions below are shallow embeddings of those
source functions; JavaScript objects (`Record<string, string>`) are modelled
as association lists observed through key lookup, and JavaScript string
truthiness is modelled explicitly.
-/

namespace Chess

/-- The two player colors, `'white' | 'black'` in the source. -/
inductive Color where
  | white
  | black
  deriving DecidableEq

/-- A JavaScript object mapping square names to piece glyphs
(`Record<string, string>`), modelled as an association list with unique
keys, observed only through `getB`. -/
abbrev Board := List (String × String)

/-- Lookup `board[square]`: the value at the first matching key, if any
(`undefined` is `none`). -/
def getB (b : Board) (s : String) : Option String :=
  (b.find? (fun p => p.1 == s)).map (fun p => p.2)

/-- JavaScript truthiness of `board[square]`: `undefined` and the empty
string are falsy, every other string is truthy. -/
def truthy : Option String → Bool
  | none => false
  | some s => !s.isEmpty

/-- The JavaScript statement `delete board[k]`. -/
def delB (b : Board) (k : String) : Board :=
  b.filter (fun p => p.1 != k)

/-- The JavaScript assignment `board[k] = v` (observed through `getB`;
key order of the underlying object is not observable). -/
def setB (b : Board) (k v : String) : Board :=
  delB b k ++ [(k, v)]

/-- JavaScript `s[i]` / `s.charCodeAt(i)` character access.  Off the end of
the string JavaScript yields `undefined`/`NaN`; that case is modelled by an
arbitrary character and is never relied upon (all call sites are guarded by
`isValidSquare`). -/
def charAt (s : String) (i : Nat) : Char :=
  s.data.getD i (Char.ofNat 0)

/-- Helper for `jsIncludes`: does the second list start with the first? -/
def leadMatch : List Char → List Char → Bool
  | [], _ => true
  | _ :: _, [] => false
  | a :: as, b :: bs => a == b && leadMatch as bs

/-- Helper for `jsIncludes`: does the needle occur contiguously in the
haystack? -/
def hasSub : List Char → List Char → Bool
  | needle, [] => needle.isEmpty
  | needle, c :: rest => leadMatch needle (c :: rest) || hasSub needle rest

/-- JavaScript `hay.includes(needle)`: contiguous substring containment
(every glyph used here is a single UTF-16 code unit, so code-unit and
character indexing agree). -/
def jsIncludes (hay needle : String) : Bool :=
  hasSub needle.data hay.data

/-- `ChessLogic.isValidSquare` / `ChessValidator.isValidSquare`: two
characters, file letter `a..h`, rank digit `1..8`. -/
def isValidSquare (s : String) : Bool :=
  s.length == 2
    && jsIncludes "abcdefgh" (String.mk [charAt s 0])
    && jsIncludes "12345678" (String.mk [charAt s 1])

/-- `isWhitePiece`: membership test via `'♔♕♖♗♘♙'.includes(piece)`. -/
def isWhitePiece (p : String) : Bool :=
  jsIncludes "♔♕♖♗♘♙" p

/-- `isBlackPiece`: membership test via `'♚♛♜♝♞♟'.includes(piece)`. -/
def isBlackPiece (p : String) : Bool :=
  jsIncludes "♚♛♜♝♞♟" p

/-- `getPieceColor`: white glyphs, then black glyphs, else `null`. -/
def getPieceColor (p : String) : Option Color :=
  if isWhitePiece p then some Color.white
  else if isBlackPiece p then some Color.black
  else none

/-- `getPieceType`: twelve-entry glyph-to-kind table with `'unknown'`
default. -/
def getPieceType (p : String) : String :=
  if p = "♔" ∨ p = "♚" then "king"
  else if p = "♕" ∨ p = "♛" then "queen"
  else if p = "♖" ∨ p = "♜" then "rook"
  else if p = "♗" ∨ p = "♝" then "bishop"
  else if p = "♘" ∨ p = "♞" then "knight"
  else if p = "♙" ∨ p = "♟" then "pawn"
  else "unknown"

/-- Zero-based file/rank coordinates of a square, `{ file, rank }` in the
source. -/
structure Coords where
  file : Int
  rank : Int
  deriving DecidableEq

/-- Value of JavaScript `parseInt` on the single characters that occur in
well-formed squares (digits).  On a non-digit JavaScript yields `NaN`;
that case is modelled by an arbitrary value and never relied upon. -/
def jsDigit (c : Char) : Int :=
  if '0' ≤ c ∧ c ≤ '9' then (c.toNat : Int) - 48 else 0

/-- `getSquareCoordinates`: `file = charCodeAt(0) - 'a'.charCodeAt(0)`,
`rank = parseInt(square[1]) - 1`. -/
def getSquareCoordinates (s : String) : Coords :=
  ⟨((charAt s 0).toNat : Int) - 97, jsDigit (charAt s 1) - 1⟩

/-- The square-name expression `String.fromCharCode('a'.charCodeAt(0) + file)
+ (rank + 1)` used throughout the validator to turn coordinates back into a
key. -/
def coordToSquare (f r : Int) : String :=
  String.mk [Char.ofNat (97 + f).toNat] ++ toString (r + 1)

/-- The step expression of `isPathClear`:
`to > from ? 1 : to < from ? -1 : 0`. -/
def stepOf (a b : Int) : Int :=
  if a < b then 1 else if b < a then -1 else 0

/-- The `while` loop of `isPathClear`, walking from the current square in
unit steps until the target square is reached; any truthy intermediate
square fails the check.  The loop is fuel-indexed: on the aligned inputs on
which the source ever invokes it, it terminates within 8 iterations, so the
fuel of 64 supplied by `isPathClear` is never exhausted (on misaligned
inputs the source loop would not terminate at all). -/
def pathClearGo (b : Board) (tf tr fs rs : Int) : Int → Int → Nat → Bool
  | _, _, 0 => true
  | cf, cr, fuel + 1 =>
    if cf = tf ∧ cr = tr then true
    else if truthy (getB b (coordToSquare cf cr)) then false
    else pathClearGo b tf tr fs rs (cf + fs) (cr + rs) fuel

/-- `isPathClear`: compute unit steps and walk from the square after `from`
up to (excluding) `to`. -/
def isPathClear (b : Board) (f t : Coords) : Bool :=
  let fileStep := stepOf f.file t.file
  let rankStep := stepOf f.rank t.rank
  pathClearGo b t.file t.rank fileStep rankStep (f.file + fileStep) (f.rank + rankStep) 64

/-- `isValidRookMove`: reject when the move is neither horizontal nor
vertical, then check the path. -/
def isValidRookMove (b : Board) (f t : Coords) : Bool :=
  if f.file ≠ t.file ∧ f.rank ≠ t.rank then false
  else isPathClear b f t

/-- `isValidBishopMove`: reject when `|df| ≠ |dr|`, then check the path. -/
def isValidBishopMove (b : Board) (f t : Coords) : Bool :=
  if (t.file - f.file).natAbs ≠ (t.rank - f.rank).natAbs then false
  else isPathClear b f t

/-- `isValidQueenMove`: rook rule or bishop rule. -/
def isValidQueenMove (b : Board) (f t : Coords) : Bool :=
  isValidRookMove b f t || isValidBishopMove b f t

/-- `isValidKingMove`: one square in any direction, excluding the null
move. -/
def isValidKingMove (f t : Coords) : Bool :=
  let fileDiff := (t.file - f.file).natAbs
  let rankDiff := (t.rank - f.rank).natAbs
  fileDiff ≤ 1 && rankDiff ≤ 1 && (fileDiff > 0 || rankDiff > 0)

/-- `isValidKnightMove`: L-shape. -/
def isValidKnightMove (f t : Coords) : Bool :=
  let fileDiff := (t.file - f.file).natAbs
  let rankDiff := (t.rank - f.rank).natAbs
  (fileDiff == 2 && rankDiff == 1) || (fileDiff == 1 && rankDiff == 2)

/-- `isValidPawnMove`: forward one (empty destination), forward two from the
start rank (both squares empty), or diagonal capture (destination truthy
and not the mover's color).  `fileDiff` is `Math.abs`, `rankDiff` is
signed. -/
def isValidPawnMove (b : Board) (f t : Coords) (isWhite : Bool) : Bool :=
  let direction : Int := if isWhite then 1 else -1
  let startRank : Int := if isWhite then 1 else 6
  let fileDiff := (t.file - f.file).natAbs
  let rankDiff := t.rank - f.rank
  if fileDiff = 0 then
    if rankDiff = direction then
      !truthy (getB b (coordToSquare t.file t.rank))
    else if rankDiff = 2 * direction ∧ f.rank = startRank then
      !truthy (getB b (coordToSquare t.file (f.rank + direction)))
        && !truthy (getB b (coordToSquare t.file t.rank))
    else false
  else if fileDiff = 1 ∧ rankDiff = direction then
    match getB b (coordToSquare t.file t.rank) with
    | none => false
    | some tp =>
      !tp.isEmpty && decide (getPieceColor tp ≠ some (if isWhite then Color.white else Color.black))
  else false

/-- `isValidPieceMove`: convert both squares to coordinates and dispatch on
the piece kind; unknown kinds are illegal. -/
def isValidPieceMove (b : Board) (fromS toS piece : String) : Bool :=
  let fc := getSquareCoordinates fromS
  let tc := getSquareCoordinates toS
  let pt := getPieceType piece
  if pt = "pawn" then isValidPawnMove b fc tc (isWhitePiece piece)
  else if pt = "rook" then isValidRookMove b fc tc
  else if pt = "bishop" then isValidBishopMove b fc tc
  else if pt = "queen" then isValidQueenMove b fc tc
  else if pt = "king" then isValidKingMove fc tc
  else if pt = "knight" then isValidKnightMove fc tc
  else false

/-- `isValidMove`: square validity, occupied origin, mover owns the piece,
no self-capture, then per-piece geometry.  `board[from]`/`board[to]` being
`undefined` or `""` behave identically on every path taken, so both are
modelled by `""` via `getD`. -/
def isValidMove (b : Board) (fromS toS : String) (currentPlayer : Color) : Bool :=
  if !isValidSquare fromS || !isValidSquare toS then false
  else
    let piece := (getB b fromS).getD ""
    if piece.isEmpty then false
    else if getPieceColor piece ≠ some currentPlayer then false
    else
      let targetPiece := (getB b toS).getD ""
      if !targetPiece.isEmpty ∧ getPieceColor targetPiece = some currentPlayer then false
      else isValidPieceMove b fromS toS piece

/-- One entry of `moveHistory`. -/
structure MoveRec where
  fromSq : String
  toSq : String
  piece : String
  player : Color
  timestamp : String
  deriving DecidableEq

/-- The mutable fields of the `ChessGame` class. -/
structure ChessGame where
  gameId : String
  board : Board
  currentPlayer : Color
  moveHistory : List MoveRec
  gameOver : Bool
  winner : Option String
  deriving DecidableEq

/-- `ChessGame.initBoard`: the literal starting position, in source order
(white back rank, white pawns, black back rank, black pawns). -/
def initBoard : Board :=
  [("a1", "♖"), ("b1", "♘"), ("c1", "♗"), ("d1", "♕"),
   ("e1", "♔"), ("f1", "♗"), ("g1", "♘"), ("h1", "♖"),
   ("a2", "♙"), ("b2", "♙"), ("c2", "♙"), ("d2", "♙"),
   ("e2", "♙"), ("f2", "♙"), ("g2", "♙"), ("h2", "♙"),
   ("a8", "♜"), ("b8", "♞"), ("c8", "♝"), ("d8", "♛"),
   ("e8", "♚"), ("f8", "♝"), ("g8", "♞"), ("h8", "♜"),
   ("a7", "♟"), ("b7", "♟"), ("c7", "♟"), ("d7", "♟"),
   ("e7", "♟"), ("f7", "♟"), ("g7", "♟"), ("h7", "♟")]

/-- The `ChessGame` constructor: starting board, white to move, empty
history, `gameOver = false`, `winner = null`. -/
def newGame (gid : String) : ChessGame :=
  ⟨gid, initBoard, Color.white, [], false, none⟩

/-- `ChessGame.makeMove`, written state-passing: the boolean result plus the
session state after the call.  `new Date().toISOString()` is the `now`
argument.  The three checks precede every mutation, exactly as in the
source. -/
def makeMove (g : ChessGame) (fromS toS now : String) : Bool × ChessGame :=
  if !isValidSquare fromS || !isValidSquare toS then (false, g)
  else if !truthy (getB g.board fromS) then (false, g)
  else if !isValidMove g.board fromS toS g.currentPlayer then (false, g)
  else
    let piece := (getB g.board fromS).getD ""
    (true,
      { g with
        board := delB (setB g.board toS piece) fromS,
        moveHistory := g.moveHistory ++ [⟨fromS, toS, piece, g.currentPlayer, now⟩],
        currentPlayer := if g.currentPlayer = Color.white then Color.black else Color.white })

/-- The 4xx/5xx rejection reasons of the two move routes:
`'Not your turn'`, `'Invalid move'`, `'Not AI turn'`, `'AI made invalid
move'`.  The first and third realize the spec's `OutOfTurn` error. -/
inductive RouteError where
  | notYourTurn
  | invalidMove
  | notAITurn
  | aiInvalidMove
  deriving DecidableEq

/-- The `POST /api/game/:gameId/move` handler, after the session has been
resolved in the registry: reject unless white is to move, then delegate to
`makeMove`.  The returned game is the session state after the request. -/
def playerMoveRoute (g : ChessGame) (fromS toS now : String) : Option RouteError × ChessGame :=
  if g.currentPlayer ≠ Color.white then (some RouteError.notYourTurn, g)
  else
    let r := makeMove g fromS toS now
    if r.1 then (none, r.2) else (some RouteError.invalidMove, r.2)

/-- The `POST /api/game/:gameId/ai-move` handler, after the session has been
resolved and the external AI has produced a candidate `(from, to)` pair:
reject unless black is to move, then validate the candidate through
`makeMove` exactly like a human move. -/
def aiMoveRoute (g : ChessGame) (fromS toS now : String) : Option RouteError × ChessGame :=
  if g.currentPlayer ≠ Color.black then (some RouteError.notAITurn, g)
  else
    let r := makeMove g fromS toS now
    if r.1 then (none, r.2) else (some RouteError.aiInvalidMove, r.2)

/-- The session state after a sequence of `makeMove` calls (the session's
only mutator). -/
def applyMoves (g : ChessGame) (ms : List (String × String × String)) : ChessGame :=
  ms.foldl (fun acc m => (makeMove acc m.1 m.2.1 m.2.2).2) g

/-! Spec-side definitions, written from the specification's words, used to
compare the source's validators against the specified geometry. -/

/-- The twelve piece glyphs of the data model. -/
def glyphs : List String :=
  ["♔", "♕", "♖", "♗", "♘", "♙", "♚", "♛", "♜", "♝", "♞", "♟"]

/-- A board conforming to the spec's data model: every stored value is one
of the twelve piece glyphs. -/
def boardWF (b : Board) : Bool :=
  b.all (fun kv => decide (kv.2 ∈ glyphs))

/-- The opposite color. -/
def oppColor : Color → Color
  | Color.white => Color.black
  | Color.black => Color.white

/-- The integers strictly between `a` and `b`. -/
def intsStrictlyBetween (a b : Int) : List Int :=
  let s : Int := if a < b then 1 else -1
  (List.range ((b - a).natAbs - 1)).map (fun k : Nat => a + s * ((k : Int) + 1))

/-- The squares strictly between two squares of a common file or rank
(empty for misaligned pairs). -/
def rookBetween (f t : Coords) : List Coords :=
  if f.file = t.file then (intsStrictlyBetween f.rank t.rank).map (fun r => ⟨f.file, r⟩)
  else if f.rank = t.rank then (intsStrictlyBetween f.file t.file).map (fun x => ⟨x, f.rank⟩)
  else []

/-- Whether a square is empty (no entry in the board mapping). -/
def squareEmpty (b : Board) (c : Coords) : Bool :=
  (getB b (coordToSquare c.file c.rank)).isNone

/-- Modelled from the spec: rook geometry as claimed — `df = 0` xor
`dr = 0`, and the straight-line path strictly between the squares entirely
empty. -/
def rookSpecXor (b : Board) (f t : Coords) : Bool :=
  Bool.xor (decide (f.file = t.file)) (decide (f.rank = t.rank))
    && (rookBetween f t).all (squareEmpty b)

/-- Rook geometry with the exclusive-or weakened to an inclusive or — the
amended form of the claim actually implemented by the source (the null move
is accepted by the geometry check in isolation). -/
def rookSpecInclusive (b : Board) (f t : Coords) : Bool :=
  (decide (f.file = t.file) || decide (f.rank = t.rank))
    && (rookBetween f t).all (squareEmpty b)

/-- Modelled from the spec: pawn geometry as claimed — single forward step
to an empty destination, double forward step from the start rank over two
empty squares, or diagonal step onto a piece of the opposite color. -/
def pawnSpec (b : Board) (f t : Coords) (isWhite : Bool) : Bool :=
  let dir : Int := if isWhite then 1 else -1
  let start : Int := if isWhite then 1 else 6
  let mover : Color := if isWhite then Color.white else Color.black
  let df := t.file - f.file
  let dr := t.rank - f.rank
  let dest := getB b (coordToSquare t.file t.rank)
  (decide (df = 0) && decide (dr = dir) && dest.isNone)
    || (decide (df = 0) && decide (dr = 2 * dir) && decide (f.rank = start)
          && (getB b (coordToSquare f.file (f.rank + dir))).isNone && dest.isNone)
    || (decide (df.natAbs = 1) && decide (dr = dir)
          && match dest with
             | some p => decide (getPieceColor p = some (oppColor mover))
             | none => false)

/-- Both coordinates of a square lie in `[0, 7]`. -/
def inRange (c : Coords) : Prop :=
  0 ≤ c.file ∧ c.file ≤ 7 ∧ 0 ≤ c.rank ∧ c.rank ≤ 7

instance (c : Coords) : Decidable (inRange c) := by
  unfold inRange
  infer_instance

/-! Basic lemmas about the embedding. -/

lemma stepOf_self (a : Int) : stepOf a a = 0 := by
  unfold stepOf
  simp

lemma pathClearGo_at_target (b : Board) (tf tr fs rs cf cr : Int) (fuel : Nat)
    (h1 : cf = tf) (h2 : cr = tr) : pathClearGo b tf tr fs rs cf cr fuel = true := by
  cases fuel with
  | zero => rfl
  | succ n =>
    unfold pathClearGo
    rw [if_pos ⟨h1, h2⟩]

lemma isPathClear_self (b : Board) (f : Coords) : isPathClear b f f = true := by
  unfold isPathClear
  apply pathClearGo_at_target <;> simp [stepOf_self]

lemma isValidMove_self (b : Board) (s : String) (c : Color) :
    isValidMove b s s c = false := by
  unfold isValidMove
  dsimp only
  split_ifs with h1 h2 h3 h4
  · rfl
  · rfl
  · rfl
  · rfl
  · exact absurd ⟨by simp [h2], not_not.mp h3⟩ h4

lemma makeMove_false_state (g : ChessGame) (f t n : String)
    (h : (makeMove g f t n).1 = false) : (makeMove g f t n).2 = g := by
  unfold makeMove at h ⊢
  split_ifs at h ⊢ <;> simp_all

lemma makeMove_gameOver (g : ChessGame) (f t n : String) :
    (makeMove g f t n).2.gameOver = g.gameOver := by
  unfold makeMove
  split_ifs <;> rfl

lemma makeMove_winner (g : ChessGame) (f t n : String) :
    (makeMove g f t n).2.winner = g.winner := by
  unfold makeMove
  split_ifs <;> rfl

lemma applyMoves_gameOver (ms : List (String × String × String)) :
    ∀ g : ChessGame, (applyMoves g ms).gameOver = g.gameOver := by
  induction ms with
  | nil => intro g; rfl
  | cons m rest ih =>
    intro g
    show (applyMoves ((makeMove g m.1 m.2.1 m.2.2).2) rest).gameOver = g.gameOver
    rw [ih, makeMove_gameOver]

lemma applyMoves_winner (ms : List (String × String × String)) :
    ∀ g : ChessGame, (applyMoves g ms).winner = g.winner := by
  induction ms with
  | nil => intro g; rfl
  | cons m rest ih =>
    intro g
    show (applyMoves ((makeMove g m.1 m.2.1 m.2.2).2) rest).winner = g.winner
    rw [ih, makeMove_winner]

/-! Claim theorems. -/

/-- C3: every rejected `makeMove` attempt — whatever the reason (invalid
square, empty origin, wrong color, self-capture, or failed geometry) —
leaves the board mapping, the current turn, and the move history exactly as
they were: all checks run before any mutation. -/
theorem rejected_move_preserves_state (g : ChessGame) (f t n : String)
    (h : (makeMove g f t n).1 = false) :
    (makeMove g f t n).2.board = g.board
      ∧ (makeMove g f t n).2.currentPlayer = g.currentPlayer
      ∧ (makeMove g f t n).2.moveHistory = g.moveHistory := by
  rw [makeMove_false_state g f t n h]
  exact ⟨rfl, rfl, rfl⟩

/-- Witness for C3: the spec's scenario — White's illegal pawn leap
`e2→e5` is rejected and the fresh session is left untouched. -/
theorem rejected_move_preserves_state_witness :
    (makeMove (newGame "g1") "e2" "e5" "t0").1 = false
      ∧ ((makeMove (newGame "g1") "e2" "e5" "t0").2.board = (newGame "g1").board
          ∧ (makeMove (newGame "g1") "e2" "e5" "t0").2.currentPlayer = (newGame "g1").currentPlayer
          ∧ (makeMove (newGame "g1") "e2" "e5" "t0").2.moveHistory = (newGame "g1").moveHistory) :=
  ⟨by decide, rejected_move_preserves_state (newGame "g1") "e2" "e5" "t0" (by decide)⟩

/-- C7: every chess session reachable from a fresh session by any sequence
of move attempts still has `gameOver = false` and `winner = null`: no chess
operation ever sets them. -/
theorem session_never_terminates (gid : String) (ms : List (String × String × String)) :
    (applyMoves (newGame gid) ms).gameOver = false
      ∧ (applyMoves (newGame gid) ms).winner = none := by
  rw [applyMoves_gameOver, applyMoves_winner]
  exact ⟨rfl, rfl⟩

/-- C10: the full legality check rejects the null move on every board and
for every mover — every rejection path (empty origin, foreign or
unrecognized piece, self-capture) yields `false` — even though the rook and
queen geometry checks in isolation accept `from = to`. -/
theorem null_move_rejected :
    (∀ (b : Board) (s : String) (c : Color), isValidMove b s s c = false)
      ∧ (∀ (b : Board) (f : Coords),
          isValidRookMove b f f = true ∧ isValidQueenMove b f f = true) := by
  refine ⟨fun b s c => isValidMove_self b s c, fun b f => ?_⟩
  have hr : isValidRookMove b f f = true := by
    unfold isValidRookMove
    rw [if_neg (by simp)]
    exact isPathClear_self b f
  refine ⟨hr, ?_⟩
  unfold isValidQueenMove
  rw [hr]
  rfl

/-- C1 counterexample: a session whose `gameOver` flag is set does not have
its move attempts rejected — `makeMove` contains no termination check, so
the move `e2→e4` succeeds and mutates the board. -/
theorem terminated_session_still_moves :
    (makeMove { newGame "g1" with gameOver := true } "e2" "e4" "t0").1 = true
      ∧ (makeMove { newGame "g1" with gameOver := true } "e2" "e4" "t0").2.board
          ≠ (newGame "g1").board := by
  decide

/-- C1 amended: `makeMove` never consults the `gameOver` or `winner` fields
and never modifies them — its result and its effect on the board, turn and
history are identical whatever their values — so no move attempt is ever
rejected for termination (and, per the session invariant, no chess session
ever sets the flag anyway). -/
theorem makeMove_ignores_termination (g : ChessGame) (fromS toS now : String)
    (go : Bool) (w : Option String) :
    makeMove { g with gameOver := go, winner := w } fromS toS now
      = ((makeMove g fromS toS now).1,
          { (makeMove g fromS toS now).2 with gameOver := go, winner := w }) := by
  cases g with
  | mk gid bd cp mh go0 w0 =>
    unfold makeMove
    dsimp only
    split_ifs <;> rfl

/-- The conventional white back rank, king-side to queen-side by file. -/
def whiteBack : List String :=
  ["♖", "♘", "♗", "♕", "♔", "♗", "♘", "♖"]

/-- The conventional black back rank. -/
def blackBack : List String :=
  ["♜", "♞", "♝", "♛", "♚", "♝", "♞", "♜"]

/-- C9: the initial board holds exactly 32 pieces — white pawns on
zero-based rank 1, the conventional white back rank on rank 0, black pawns
on rank 6, the conventional black back rank on rank 7 — and every square of
zero-based ranks 2–5 (ranks 3–6 in algebraic notation) is empty. -/
theorem initBoard_standard_setup :
    initBoard.length = 32
      ∧ (initBoard.map Prod.fst).Nodup
      ∧ (∀ f : Fin 8,
          getB initBoard (coordToSquare f.val 1) = some "♙"
            ∧ getB initBoard (coordToSquare f.val 6) = some "♟"
            ∧ getB initBoard (coordToSquare f.val 0) = some (whiteBack.getD f.val "")
            ∧ getB initBoard (coordToSquare f.val 7) = some (blackBack.getD f.val ""))
      ∧ (∀ f : Fin 8, ∀ r : Fin 4,
          getB initBoard (coordToSquare f.val ((r.val : Int) + 2)) = none) := by
  decide

lemma getB_cons (k v : String) (b : Board) (s : String) :
    getB ((k, v) :: b) s = if k = s then some v else getB b s := by
  by_cases h : k = s
  · simp [getB, List.find?, h]
  · have hb : (k == s) = false := by simp [h]
    simp [getB, List.find?, hb, h]

lemma delB_cons_eq (a v k : String) (rest : Board) (h : a = k) :
    delB ((a, v) :: rest) k = delB rest k := by
  simp [delB, h]

lemma delB_cons_ne (a v k : String) (rest : Board) (h : ¬a = k) :
    delB ((a, v) :: rest) k = (a, v) :: delB rest k := by
  simp [delB, h]

lemma getB_delB (b : Board) (k s : String) :
    getB (delB b k) s = if s = k then none else getB b s := by
  induction b with
  | nil => by_cases h : s = k <;> simp [delB, getB, h]
  | cons p rest ih =>
    obtain ⟨a, v⟩ := p
    by_cases hak : a = k
    · rw [delB_cons_eq a v k rest hak, ih, getB_cons]
      by_cases hsk : s = k
      · simp [hsk]
      · rw [if_neg hsk, if_neg hsk,
          if_neg (fun he : a = s => hsk (he.symm.trans hak))]
    · rw [delB_cons_ne a v k rest hak, getB_cons, getB_cons, ih]
      by_cases has : a = s
      · have hsk : ¬s = k := fun he => hak ((has.trans he))
        simp [has, hsk]
      · simp [has]

lemma getB_append (l1 l2 : Board) (s : String) :
    getB (l1 ++ l2) s
      = match getB l1 s with
        | some v => some v
        | none => getB l2 s := by
  induction l1 with
  | nil => rfl
  | cons p rest ih =>
    obtain ⟨a, w⟩ := p
    rw [List.cons_append, getB_cons, getB_cons]
    by_cases h : a = s
    · simp [h]
    · simp [h, ih]

lemma getB_setB (b : Board) (k v s : String) :
    getB (setB b k v) s = if s = k then some v else getB b s := by
  unfold setB
  rw [getB_append, getB_delB]
  by_cases h : s = k
  · simp [h, getB_cons]
  · rw [if_neg h, if_neg h]
    cases hgb : getB b s with
    | none =>
      rw [getB_cons, if_neg (fun he : k = s => h he.symm)]
      rfl
    | some w => simp

lemma truthy_some (o : Option String) (h : truthy o = true) :
    ∃ p, o = some p ∧ p.isEmpty = false := by
  cases o with
  | none => exact absurd h (by simp [truthy])
  | some s =>
    refine ⟨s, rfl, ?_⟩
    simpa [truthy] using h

/-- Characterization of a successful `makeMove` call: the guards all
passed and the state is the source's update. -/
lemma makeMove_true_char (g : ChessGame) (f t n : String)
    (h : (makeMove g f t n).1 = true) :
    (makeMove g f t n).2
        = { g with
            board := delB (setB g.board t ((getB g.board f).getD "")) f,
            moveHistory :=
              g.moveHistory ++ [⟨f, t, (getB g.board f).getD "", g.currentPlayer, n⟩],
            currentPlayer :=
              if g.currentPlayer = Color.white then Color.black else Color.white }
      ∧ truthy (getB g.board f) = true
      ∧ isValidMove g.board f t g.currentPlayer = true := by
  unfold makeMove at h ⊢
  by_cases h1 : (!isValidSquare f || !isValidSquare t) = true
  · rw [if_pos h1] at h
    exact absurd h (by simp)
  · rw [if_neg h1] at h ⊢
    by_cases h2 : (!truthy (getB g.board f)) = true
    · rw [if_pos h2] at h
      exact absurd h (by simp)
    · rw [if_neg h2] at h ⊢
      by_cases h3 : (!isValidMove g.board f t g.currentPlayer) = true
      · rw [if_pos h3] at h
        exact absurd h (by simp)
      · rw [if_neg h3] at h ⊢
        refine ⟨rfl, ?_, ?_⟩
        · revert h2
          cases truthy (getB g.board f) <;> simp
        · revert h3
          cases isValidMove g.board f t g.currentPlayer <;> simp

/-- C4: a move attempt that passes validation relocates the piece from
`from` to `to` (overwriting anything at `to`), clears `from`, leaves every
other square untouched, appends exactly one record `(from, to, piece,
mover, timestamp)` to the history, and flips the turn. -/
theorem successful_move_effects (g : ChessGame) (fromS toS now : String)
    (h : (makeMove g fromS toS now).1 = true) :
    ∃ p, getB g.board fromS = some p
      ∧ getB (makeMove g fromS toS now).2.board toS = some p
      ∧ getB (makeMove g fromS toS now).2.board fromS = none
      ∧ (∀ s : String, s ≠ fromS → s ≠ toS →
          getB (makeMove g fromS toS now).2.board s = getB g.board s)
      ∧ (makeMove g fromS toS now).2.moveHistory
          = g.moveHistory ++ [⟨fromS, toS, p, g.currentPlayer, now⟩]
      ∧ (makeMove g fromS toS now).2.currentPlayer
          = (if g.currentPlayer = Color.white then Color.black else Color.white) := by
  obtain ⟨hst, htr, hval⟩ := makeMove_true_char g fromS toS now h
  obtain ⟨p, hp, hpe⟩ := truthy_some _ htr
  have hne : fromS ≠ toS := by
    intro he
    rw [he, isValidMove_self] at hval
    exact Bool.false_ne_true hval
  have hpd : (getB g.board fromS).getD "" = p := by rw [hp]; rfl
  rw [hst]
  dsimp only
  rw [hpd]
  refine ⟨p, hp, ?_, ?_, ?_, rfl, rfl⟩
  · rw [getB_delB, if_neg (fun he => hne he.symm), getB_setB, if_pos rfl]
  · rw [getB_delB, if_pos rfl]
  · intro s hsf hst2
    rw [getB_delB, if_neg hsf, getB_setB, if_neg hst2]

/-- Witness for C4: White's legal double pawn step `e2→e4` on a fresh
session has exactly the claimed effects. -/
theorem successful_move_effects_witness :
    (makeMove (newGame "g1") "e2" "e4" "t0").1 = true
      ∧ ∃ p, getB (newGame "g1").board "e2" = some p
          ∧ getB (makeMove (newGame "g1") "e2" "e4" "t0").2.board "e4" = some p
          ∧ getB (makeMove (newGame "g1") "e2" "e4" "t0").2.board "e2" = none
          ∧ (∀ s : String, s ≠ "e2" → s ≠ "e4" →
              getB (makeMove (newGame "g1") "e2" "e4" "t0").2.board s
                = getB (newGame "g1").board s)
          ∧ (makeMove (newGame "g1") "e2" "e4" "t0").2.moveHistory
              = (newGame "g1").moveHistory
                  ++ [⟨"e2", "e4", p, (newGame "g1").currentPlayer, "t0"⟩]
          ∧ (makeMove (newGame "g1") "e2" "e4" "t0").2.currentPlayer
              = (if (newGame "g1").currentPlayer = Color.white then Color.black
                 else Color.white) :=
  ⟨by decide, successful_move_effects (newGame "g1") "e2" "e4" "t0" (by decide)⟩

lemma makeMove_true_player (g : ChessGame) (f t n : String)
    (h : (makeMove g f t n).1 = true) :
    (makeMove g f t n).2.currentPlayer
      = (if g.currentPlayer = Color.white then Color.black else Color.white) := by
  rw [(makeMove_true_char g f t n h).1]

lemma playerMoveRoute_none (g : ChessGame) (f t n : String) (g' : ChessGame)
    (h : playerMoveRoute g f t n = (none, g')) :
    g.currentPlayer = Color.white ∧ (makeMove g f t n).1 = true
      ∧ g' = (makeMove g f t n).2 := by
  unfold playerMoveRoute at h
  dsimp only at h
  by_cases hw : g.currentPlayer ≠ Color.white
  · rw [if_pos hw] at h
    exact absurd (congrArg Prod.fst h) (by simp)
  · rw [if_neg hw] at h
    by_cases hr : (makeMove g f t n).1 = true
    · rw [if_pos hr] at h
      exact ⟨not_not.mp hw, hr, (congrArg Prod.snd h).symm⟩
    · rw [if_neg hr] at h
      exact absurd (congrArg Prod.fst h) (by simp)

lemma aiMoveRoute_none (g : ChessGame) (f t n : String) (g' : ChessGame)
    (h : aiMoveRoute g f t n = (none, g')) :
    g.currentPlayer = Color.black ∧ (makeMove g f t n).1 = true
      ∧ g' = (makeMove g f t n).2 := by
  unfold aiMoveRoute at h
  dsimp only at h
  by_cases hw : g.currentPlayer ≠ Color.black
  · rw [if_pos hw] at h
    exact absurd (congrArg Prod.fst h) (by simp)
  · rw [if_neg hw] at h
    by_cases hr : (makeMove g f t n).1 = true
    · rw [if_pos hr] at h
      exact ⟨not_not.mp hw, hr, (congrArg Prod.snd h).symm⟩
    · rw [if_neg hr] at h
      exact absurd (congrArg Prod.fst h) (by simp)

/-- C6: after one side's successful move, an immediate second attempt by
the same side — through the same route, with no intervening opponent move —
is rejected with that route's out-of-turn error (`'Not your turn'` /
`'Not AI turn'`, the spec's `OutOfTurn`) and leaves the session state
unchanged. -/
theorem second_move_same_side_rejected (g : ChessGame)
    (f1 t1 n1 f2 t2 n2 : String) (g' : ChessGame) :
    (playerMoveRoute g f1 t1 n1 = (none, g') →
        playerMoveRoute g' f2 t2 n2 = (some RouteError.notYourTurn, g'))
      ∧ (aiMoveRoute g f1 t1 n1 = (none, g') →
        aiMoveRoute g' f2 t2 n2 = (some RouteError.notAITurn, g')) := by
  constructor
  · intro h
    obtain ⟨hw, hr, hg⟩ := playerMoveRoute_none g f1 t1 n1 g' h
    have hp : g'.currentPlayer = Color.black := by
      rw [hg, makeMove_true_player g f1 t1 n1 hr, if_pos hw]
    unfold playerMoveRoute
    rw [if_pos (by rw [hp]; exact fun he => Color.noConfusion he)]
  · intro h
    obtain ⟨hw, hr, hg⟩ := aiMoveRoute_none g f1 t1 n1 g' h
    have hp : g'.currentPlayer = Color.white := by
      rw [hg, makeMove_true_player g f1 t1 n1 hr, if_neg (by rw [hw]; exact fun he => Color.noConfusion he)]
    unfold aiMoveRoute
    rw [if_pos (by rw [hp]; exact fun he => Color.noConfusion he)]

/-- Witness for C6: after White's `e2→e4`, White's second attempt `d2→d4`
gets `'Not your turn'`; after Black's reply `e7→e5` through the AI route, a
second AI attempt gets `'Not AI turn'`. -/
theorem second_move_same_side_rejected_witness :
    playerMoveRoute (playerMoveRoute (newGame "g1") "e2" "e4" "t0").2 "d2" "d4" "t1"
        = (some RouteError.notYourTurn, (playerMoveRoute (newGame "g1") "e2" "e4" "t0").2)
      ∧ aiMoveRoute (aiMoveRoute (playerMoveRoute (newGame "g1") "e2" "e4" "t0").2 "e7" "e5" "t1").2 "d7" "d5" "t2"
        = (some RouteError.notAITurn,
            (aiMoveRoute (playerMoveRoute (newGame "g1") "e2" "e4" "t0").2 "e7" "e5" "t1").2) :=
  ⟨(second_move_same_side_rejected (newGame "g1") "e2" "e4" "t0" "d2" "d4" "t1"
      (playerMoveRoute (newGame "g1") "e2" "e4" "t0").2).1 (by decide),
   (second_move_same_side_rejected (playerMoveRoute (newGame "g1") "e2" "e4" "t0").2
      "e7" "e5" "t1" "d7" "d5" "t2"
      (aiMoveRoute (playerMoveRoute (newGame "g1") "e2" "e4" "t0").2 "e7" "e5" "t1").2).2 (by decide)⟩

/-- C8: formatting a square's zero-based coordinates as its two-character
algebraic name and parsing the name back recovers the coordinates. -/
theorem parse_format_round_trip (f r : Int)
    (hf0 : 0 ≤ f) (hf7 : f ≤ 7) (hr0 : 0 ≤ r) (hr7 : r ≤ 7) :
    getSquareCoordinates (coordToSquare f r) = ⟨f, r⟩ := by
  interval_cases f <;> interval_cases r <;> decide

/-- Witness for C8: the round trip at `e4`, coordinates `(4, 3)`. -/
theorem parse_format_round_trip_witness :
    getSquareCoordinates (coordToSquare 4 3) = ⟨4, 3⟩ :=
  parse_format_round_trip 4 3 (by decide) (by decide) (by decide) (by decide)

lemma wf_getB_glyph (b : Board) (hwf : boardWF b = true) (s p : String)
    (h : getB b s = some p) : p ∈ glyphs := by
  unfold getB at h
  cases hf : List.find? (fun q => q.1 == s) b with
  | none =>
    rw [hf] at h
    simp at h
  | some pr =>
    rw [hf] at h
    simp only [Option.map_some', Option.some.injEq] at h
    have hmem : pr ∈ b := List.mem_of_find?_eq_some hf
    have hall := List.all_eq_true.mp hwf pr hmem
    rw [← h]
    exact of_decide_eq_true hall

lemma glyph_not_empty (p : String) (h : p ∈ glyphs) : p.isEmpty = false := by
  fin_cases h <;> rfl

lemma wf_not_truthy (b : Board) (hwf : boardWF b = true) (s : String) :
    (!truthy (getB b s)) = (getB b s).isNone := by
  cases hgb : getB b s with
  | none => rfl
  | some p =>
    have hg := wf_getB_glyph b hwf s p hgb
    simp [truthy, glyph_not_empty p hg]

lemma glyph_diag_color (p : String) (h : p ∈ glyphs) (c : Color) :
    (!p.isEmpty && decide (getPieceColor p ≠ some c))
      = decide (getPieceColor p = some (oppColor c)) := by
  fin_cases h <;> cases c <;> decide

lemma list_all_congr {α : Type} (l : List α) (p q : α → Bool)
    (h : ∀ x, p x = q x) : l.all p = l.all q := by
  induction l with
  | nil => rfl
  | cons a tl ih => rw [List.all_cons, List.all_cons, h a, ih]

lemma list_all_comp_map {α β : Type} (l : List α) (f : α → β) (p : β → Bool) :
    (l.map f).all p = l.all (fun x => p (f x)) := by
  induction l with
  | nil => rfl
  | cons a tl ih => rw [List.map_cons, List.all_cons, List.all_cons, ih]

lemma stepOf_ne (a c : Int) (h : a ≠ c) :
    stepOf a c = if a < c then 1 else -1 := by
  unfold stepOf
  by_cases hlt : a < c
  · simp [hlt]
  · rw [if_neg hlt, if_neg hlt, if_pos (by omega)]

lemma pathClearGo_char (b : Board) (fs rs : Int) (hnz : ¬(fs = 0 ∧ rs = 0)) :
    ∀ (n : Nat) (cf cr : Int) (fuel : Nat), n < fuel →
      pathClearGo b (cf + fs * n) (cr + rs * n) fs rs cf cr fuel
        = (List.range n).all
            (fun k => !truthy (getB b (coordToSquare (cf + fs * k) (cr + rs * k)))) := by
  intro n
  induction n with
  | zero =>
    intro cf cr fuel hfuel
    cases fuel with
    | zero => omega
    | succ m =>
      unfold pathClearGo
      rw [if_pos ⟨by simp, by simp⟩]
      simp
  | succ n ih =>
    intro cf cr fuel hfuel
    cases fuel with
    | zero => omega
    | succ m =>
      unfold pathClearGo
      rw [if_neg ?hcond]
      case hcond =>
        rintro ⟨h1, h2⟩
        apply hnz
        have hca : ((n + 1 : Nat) : Int) ≠ 0 := by
          push_cast
          omega
        constructor
        · have hf0 : fs * ((n + 1 : Nat) : Int) = 0 := by linarith
          rcases mul_eq_zero.mp hf0 with hz | hz
          · exact hz
          · exact absurd hz hca
        · have hr0 : rs * ((n + 1 : Nat) : Int) = 0 := by linarith
          rcases mul_eq_zero.mp hr0 with hz | hz
          · exact hz
          · exact absurd hz hca
      by_cases ht : truthy (getB b (coordToSquare cf cr)) = true
      · rw [if_pos ht, List.range_succ_eq_map, List.all_cons]
        simp [ht]
      · rw [if_neg ht]
        have e1 : cf + fs * ((n + 1 : Nat) : Int) = (cf + fs) + fs * (n : Int) := by
          push_cast
          ring
        have e2 : cr + rs * ((n + 1 : Nat) : Int) = (cr + rs) + rs * (n : Int) := by
          push_cast
          ring
        rw [e1, e2, ih (cf + fs) (cr + rs) m (by omega)]
        rw [List.range_succ_eq_map, List.all_cons, List.all_map]
        have hth : (!truthy (getB b (coordToSquare (cf + fs * ((0 : Nat) : Int)) (cr + rs * ((0 : Nat) : Int))))) = true := by
          simp only [Nat.cast_zero, mul_zero, add_zero]
          simp [ht]
        rw [hth, Bool.true_and]
        apply list_all_congr
        intro k
        simp only [Function.comp_apply]
        have e3 : cf + fs * ((Nat.succ k : Nat) : Int) = (cf + fs) + fs * (k : Int) := by
          push_cast
          ring
        have e4 : cr + rs * ((Nat.succ k : Nat) : Int) = (cr + rs) + rs * (k : Int) := by
          push_cast
          ring
        rw [e3, e4]

lemma isPathClear_vert (b : Board) (ff fr tr : Int) (hne : fr ≠ tr)
    (hd : (tr - fr).natAbs ≤ 63) :
    isPathClear b ⟨ff, fr⟩ ⟨ff, tr⟩
      = (List.range ((tr - fr).natAbs - 1)).all
          (fun k => !truthy (getB b (coordToSquare ff
              (fr + (if fr < tr then 1 else -1) * ((k : Int) + 1))))) := by
  unfold isPathClear
  dsimp only
  rw [stepOf_self, stepOf_ne fr tr hne]
  by_cases hlt : fr < tr
  · rw [if_pos hlt]
    have hc := pathClearGo_char b 0 1 (by simp) ((tr - fr).natAbs - 1) (ff + 0) (fr + 1) 64 (by omega)
    simp only [zero_mul, add_zero, one_mul] at hc ⊢
    rw [show fr + 1 + (((tr - fr).natAbs - 1 : Nat) : Int) = tr from by omega] at hc
    rw [hc]
    apply list_all_congr
    intro k
    rw [show fr + 1 + (k : Int) = fr + ((k : Int) + 1) from by ring]
  · rw [if_neg hlt]
    have hc := pathClearGo_char b 0 (-1) (by simp) ((tr - fr).natAbs - 1) (ff + 0) (fr + -1) 64 (by omega)
    simp only [zero_mul, add_zero] at hc ⊢
    rw [show fr + -1 + (-1) * (((tr - fr).natAbs - 1 : Nat) : Int) = tr from by omega] at hc
    rw [hc]
    apply list_all_congr
    intro k
    rw [show fr + -1 + (-1) * (k : Int) = fr + (-1) * ((k : Int) + 1) from by ring]

lemma isPathClear_horiz (b : Board) (ff tf fr : Int) (hne : ff ≠ tf)
    (hd : (tf - ff).natAbs ≤ 63) :
    isPathClear b ⟨ff, fr⟩ ⟨tf, fr⟩
      = (List.range ((tf - ff).natAbs - 1)).all
          (fun k => !truthy (getB b (coordToSquare
              (ff + (if ff < tf then 1 else -1) * ((k : Int) + 1)) fr))) := by
  unfold isPathClear
  dsimp only
  rw [stepOf_self, stepOf_ne ff tf hne]
  by_cases hlt : ff < tf
  · rw [if_pos hlt]
    have hc := pathClearGo_char b 1 0 (by simp) ((tf - ff).natAbs - 1) (ff + 1) (fr + 0) 64 (by omega)
    simp only [zero_mul, add_zero, one_mul] at hc ⊢
    rw [show ff + 1 + (((tf - ff).natAbs - 1 : Nat) : Int) = tf from by omega] at hc
    rw [hc]
    apply list_all_congr
    intro k
    rw [show ff + 1 + (k : Int) = ff + ((k : Int) + 1) from by ring]
  · rw [if_neg hlt]
    have hc := pathClearGo_char b (-1) 0 (by simp) ((tf - ff).natAbs - 1) (ff + -1) (fr + 0) 64 (by omega)
    simp only [zero_mul, add_zero] at hc ⊢
    rw [show ff + -1 + (-1) * (((tf - ff).natAbs - 1 : Nat) : Int) = tf from by omega] at hc
    rw [hc]
    apply list_all_congr
    intro k
    rw [show ff + -1 + (-1) * (k : Int) = ff + (-1) * ((k : Int) + 1) from by ring]

/-- C2 counterexample: the claim's exclusive-or form fails on the null
move — on the empty (well-formed) board with `from = to = a1`, the source's
rook check returns `true` while the claimed xor geometry is `false`. -/
theorem rook_xor_claim_false :
    isValidRookMove [] ⟨0, 0⟩ ⟨0, 0⟩ = true
      ∧ rookSpecXor [] ⟨0, 0⟩ ⟨0, 0⟩ = false
      ∧ boardWF [] = true
      ∧ inRange ⟨0, 0⟩ := by
  refine ⟨by decide, by decide, by decide, by decide⟩

/-- C2 amended: the rook geometry check returns `true` iff at least one of
`from.file = to.file`, `from.rank = to.rank` holds (inclusive or — the null
move is accepted by the geometry check in isolation) and every square
strictly between `from` and `to` is empty. -/
theorem rook_matches_spec_inclusive (b : Board) (f t : Coords)
    (hwf : boardWF b = true) (hf : inRange f) (ht : inRange t) :
    isValidRookMove b f t = rookSpecInclusive b f t := by
  obtain ⟨ff, fr⟩ := f
  obtain ⟨tf, tr⟩ := t
  unfold inRange at hf ht
  dsimp only at hf ht
  obtain ⟨hf1, hf2, hf3, hf4⟩ := hf
  obtain ⟨ht1, ht2, ht3, ht4⟩ := ht
  unfold isValidRookMove rookSpecInclusive rookBetween
  dsimp only
  by_cases hfe : ff = tf
  · subst hfe
    rw [if_neg (by simp), if_pos rfl]
    by_cases hre : fr = tr
    · subst hre
      rw [isPathClear_self]
      unfold intsStrictlyBetween
      dsimp only
      simp
    · rw [isPathClear_vert b ff fr tr hre (by omega)]
      unfold intsStrictlyBetween
      dsimp only
      rw [List.map_map, list_all_comp_map]
      rw [show (decide (ff = ff) : Bool) = true from by simp, Bool.true_or, Bool.true_and]
      apply list_all_congr
      intro k
      simp only [Function.comp_apply]
      unfold squareEmpty
      dsimp only
      rw [wf_not_truthy b hwf]
  · by_cases hre : fr = tr
    · subst hre
      rw [if_neg (by tauto), if_neg hfe, if_pos rfl]
      rw [isPathClear_horiz b ff tf fr hfe (by omega)]
      unfold intsStrictlyBetween
      dsimp only
      rw [List.map_map, list_all_comp_map]
      rw [show (decide (fr = fr) : Bool) = true from by simp, Bool.or_true, Bool.true_and]
      apply list_all_congr
      intro k
      simp only [Function.comp_apply]
      unfold squareEmpty
      dsimp only
      rw [wf_not_truthy b hwf]
    · rw [if_pos ⟨hfe, hre⟩]
      rw [show (decide (ff = tf) : Bool) = false from by simp [hfe],
        show (decide (fr = tr) : Bool) = false from by simp [hre]]
      rfl

/-- Witness for the amended C2: a rook on `a1` with the path to `a8`
blocked at `a4` — the source check and the specified geometry agree
(both `false`), and agree again (`true`) once the board is empty. -/
theorem rook_matches_spec_inclusive_witness :
    boardWF [("a4", "♙")] = true
      ∧ inRange ⟨0, 0⟩
      ∧ inRange ⟨0, 7⟩
      ∧ isValidRookMove [("a4", "♙")] ⟨0, 0⟩ ⟨0, 7⟩
          = rookSpecInclusive [("a4", "♙")] ⟨0, 0⟩ ⟨0, 7⟩
      ∧ isValidRookMove ([] : Board) ⟨0, 0⟩ ⟨0, 7⟩
          = rookSpecInclusive ([] : Board) ⟨0, 0⟩ ⟨0, 7⟩ :=
  ⟨by decide, by decide, by decide,
   rook_matches_spec_inclusive [("a4", "♙")] ⟨0, 0⟩ ⟨0, 7⟩ (by decide) (by decide) (by decide),
   rook_matches_spec_inclusive [] ⟨0, 0⟩ ⟨0, 7⟩ (by decide) (by decide) (by decide)⟩

/-- Core equivalence behind C5: the source's pawn branch structure equals
the spec's three-case disjunction, for either direction. -/
lemma pawn_core (b : Board) (ff fr tf tr dir start : Int) (mover : Color)
    (hwf : boardWF b = true) (hdir : dir = 1 ∨ dir = -1) :
    (if (tf - ff).natAbs = 0 then
       if tr - fr = dir then !truthy (getB b (coordToSquare tf tr))
       else if (tr - fr = 2 * dir) ∧ fr = start then
         !truthy (getB b (coordToSquare tf (fr + dir))) && !truthy (getB b (coordToSquare tf tr))
       else false
     else if (tf - ff).natAbs = 1 ∧ tr - fr = dir then
       (match getB b (coordToSquare tf tr) with
        | none => false
        | some tp => !tp.isEmpty && decide (getPieceColor tp ≠ some mover))
     else false)
    = (decide (tf - ff = 0) && decide (tr - fr = dir) && (getB b (coordToSquare tf tr)).isNone
        || decide (tf - ff = 0) && decide (tr - fr = 2 * dir) && decide (fr = start)
             && (getB b (coordToSquare ff (fr + dir))).isNone && (getB b (coordToSquare tf tr)).isNone
        || decide ((tf - ff).natAbs = 1) && decide (tr - fr = dir)
             && (match getB b (coordToSquare tf tr) with
                 | some p => decide (getPieceColor p = some (oppColor mover))
                 | none => false)) := by
  have hd0 : dir ≠ 0 := by rcases hdir with h | h <;> simp [h]
  by_cases hA : (tf - ff).natAbs = 0
  · have hA0 : tf - ff = 0 := by omega
    have htf : tf = ff := by omega
    subst htf
    rw [if_pos hA, decide_eq_true hA0,
      decide_eq_false (show ¬(tf - tf).natAbs = 1 from by omega)]
    by_cases hB : tr - fr = dir
    · rw [if_pos hB, decide_eq_true hB,
        decide_eq_false (show ¬tr - fr = 2 * dir from by rcases hdir with h | h <;> omega),
        wf_not_truthy b hwf]
      simp only [Bool.true_and, Bool.false_and, Bool.and_false, Bool.or_false, Bool.false_or]
    · rw [if_neg hB, decide_eq_false hB]
      by_cases hC : (tr - fr = 2 * dir) ∧ fr = start
      · rw [if_pos hC, decide_eq_true hC.1, decide_eq_true hC.2,
          wf_not_truthy b hwf, wf_not_truthy b hwf]
        simp only [Bool.true_and, Bool.false_and, Bool.and_false, Bool.or_false, Bool.false_or]
      · rw [if_neg hC]
        rcases not_and_or.mp hC with h | h <;> rw [decide_eq_false h] <;>
          simp only [Bool.true_and, Bool.false_and, Bool.and_false, Bool.or_false, Bool.false_or]
  · rw [if_neg hA, decide_eq_false (show ¬tf - ff = 0 from by omega)]
    by_cases hD : (tf - ff).natAbs = 1 ∧ tr - fr = dir
    · rw [if_pos hD, decide_eq_true hD.1, decide_eq_true hD.2]
      cases hdest : getB b (coordToSquare tf tr) with
      | none =>
        dsimp only
        simp only [Bool.true_and, Bool.false_and, Bool.and_false, Bool.or_false, Bool.false_or]
      | some tp =>
        dsimp only
        rw [glyph_diag_color tp (wf_getB_glyph b hwf _ tp hdest) mover]
        simp only [Bool.true_and, Bool.false_and, Bool.and_false, Bool.or_false, Bool.false_or]
    · rw [if_neg hD]
      rcases not_and_or.mp hD with h | h <;> rw [decide_eq_false h] <;>
        simp only [Bool.true_and, Bool.false_and, Bool.and_false, Bool.or_false, Bool.false_or]

/-- C5: on every board of the data model, the pawn geometry check accepts
exactly the specified cases — single forward step to an empty destination;
double forward step from the start rank (zero-based 1 for White, 6 for
Black) over an empty intermediate and destination; diagonal step onto a
piece of the opposite color — and nothing else. -/
theorem pawn_matches_spec (b : Board) (f t : Coords) (w : Bool)
    (hwf : boardWF b = true) :
    isValidPawnMove b f t w = pawnSpec b f t w := by
  obtain ⟨ff, fr⟩ := f
  obtain ⟨tf, tr⟩ := t
  cases w
  · unfold isValidPawnMove pawnSpec
    dsimp only
    simp only [Bool.false_eq_true, if_false]
    exact pawn_core b ff fr tf tr (-1) 6 Color.black hwf (Or.inr rfl)
  · unfold isValidPawnMove pawnSpec
    dsimp only
    simp only [eq_self_iff_true, if_true]
    exact pawn_core b ff fr tf tr 1 1 Color.white hwf (Or.inl rfl)

/-- Witness for C5: the source check and the specified pawn geometry agree
on White's double step `e2→e4` from the initial board. -/
theorem pawn_matches_spec_witness :
    boardWF initBoard = true
      ∧ isValidPawnMove initBoard ⟨4, 1⟩ ⟨4, 3⟩ true
          = pawnSpec initBoard ⟨4, 1⟩ ⟨4, 3⟩ true :=
  ⟨by decide, pawn_matches_spec initBoard ⟨4, 1⟩ ⟨4, 3⟩ true (by decide)⟩

end Chess
